import Mathlib

/-!
Shallow embedding of the retrieval-augmented context builder of `app.py`
(the hybrid tutor application): tokenization-aware budgeting, text
chunking, relevance ranking and the question-classification policy.

Modelling choices:
* Python strings are modelled as `List Char` (`Texto`); `str.lower()` is
  per-character `Char.toLower` (faithful on the ASCII letters exercised
  here), `str.split()` is splitting on whitespace runs dropping empties,
  and the `in` substring test is `containsSub`.
* The tiktoken encoder appears only through `len(encoder.encode(s))`, an
  external black box: it is a parameter `enc : Texto → ℕ`.
* TF-IDF vectorization plus cosine similarity is an external black box
  producing one similarity per chunk text: it is a parameter
  `score : Texto → List Texto → List ℚ`; `np.argsort` ascending followed
  by reversal is embedded as a deterministic stable insertion sort on
  indices followed by reversal.
* `datetime.now().strftime(...)` is the parameter `hoy : Texto`.
-/

set_option maxRecDepth 200000

abbrev Texto := List Char

def txt (s : String) : Texto := s.data

/-- Configuration constant `MAX_CONTEXT_TOKENS = 15000` of `app.py`. -/
def MAX_CONTEXT_TOKENS : ℕ := 15000

/-- Configuration constant `CHUNK_SIZE = 800` of `app.py`. -/
def CHUNK_SIZE : ℕ := 800

/-- Configuration constant `MAX_CHUNKS = 8` of `app.py`. -/
def MAX_CHUNKS : ℕ := 8

/-- Python `s.lower()` restricted to per-character lowering. -/
def pyLower (t : Texto) : Texto := t.map Char.toLower

/-- Python substring containment `needle in hay`. -/
def containsSub (needle : Texto) : Texto → Bool
  | [] => needle.isEmpty
  | c :: resto => needle.isPrefixOf (c :: resto) || containsSub needle resto

/-- The literal patterns of `GENERAL_PATTERNS` in `app.py` (all are
regex-metacharacter-free, so `re.search` is substring search). -/
def GENERAL_PATTERNS : List Texto :=
  [txt "qué día es hoy", txt "fecha actual", txt "cuándo es hoy", txt "dime la fecha",
   txt "quién es el presidente", txt "presidente de", txt "capital de",
   txt "cuál es la moneda", txt "moneda de",
   txt "define ia", txt "define inteligencia artificial", txt "qué es ia",
   txt "qué es inteligencia artificial",
   txt "qué es un sistema", txt "qué es un sistema de información", txt "qué es el internet",
   txt "cómo está el clima", txt "temperatura en", txt "quién inventó", txt "quién fue",
   txt "resumen de",
   txt "nombra", txt "lista de", txt "ejemplo de", txt "cuál es la ecuación", txt "quién ganó"]

/-- The `palabras_cultura` list inside `es_pregunta_general`. -/
def PALABRAS_CULTURA : List Texto :=
  [txt "capital", txt "presidente", txt "clima", txt "temperatura", txt "moneda",
   txt "inventor", txt "fecha"]

/-- The `irrelevantes` denylist inside `es_pregunta_irrelevante`. -/
def IRRELEVANTES : List Texto :=
  [txt "partido de fútbol", txt "goles", txt "reggaeton", txt "farandula", txt "chisme",
   txt "memes", txt "broma"]

/-- `es_pregunta_general` of `app.py`: lowercase the question, then test the
fixed patterns and the general-culture trigger words. -/
def esPreguntaGeneral (pregunta : Texto) : Bool :=
  GENERAL_PATTERNS.any (fun patron => containsSub patron (pyLower pregunta)) ||
    PALABRAS_CULTURA.any (fun pal => containsSub pal (pyLower pregunta))

/-- `es_pregunta_irrelevante` of `app.py`: denylist substring match on the
lowercased question. -/
def esPreguntaIrrelevante (pregunta : Texto) : Bool :=
  IRRELEVANTES.any (fun pal => containsSub pal (pyLower pregunta))

/-- Accumulator-passing implementation of Python `str.split()`:
split on whitespace runs, dropping empty pieces. -/
def pyWordsAux : Texto → Texto → List Texto
  | [], acc => if acc.isEmpty then [] else [acc.reverse]
  | c :: resto, acc =>
    if c.isWhitespace then
      if acc.isEmpty then pyWordsAux resto [] else acc.reverse :: pyWordsAux resto []
    else pyWordsAux resto (c :: acc)

/-- Python `texto.split()` as used by the chunker. -/
def pyWords (t : Texto) : List Texto := pyWordsAux t []

/-- Python `" ".join(words)`. -/
def joinSpace : List Texto → Texto
  | [] => []
  | [w] => w
  | w :: resto => w ++ ' ' :: joinSpace resto

/-- Python `texto.strip()`. -/
def pyStrip (t : Texto) : Texto :=
  ((t.dropWhile Char.isWhitespace).reverse.dropWhile Char.isWhitespace).reverse

/-- The word windows `words[i:i+CHUNK_SIZE]` for `i in range(0, len(words),
CHUNK_SIZE)` in `seleccionar_chunks_relevantes`. -/
def toWindows (ws : List Texto) : List (List Texto) :=
  (List.range ((ws.length + CHUNK_SIZE - 1) / CHUNK_SIZE)).map
    (fun k => (ws.drop (k * CHUNK_SIZE)).take CHUNK_SIZE)

/-- The chunk texts produced for one document: each window joined by a
single space, per lines 117-120 of `app.py`. -/
def chunksDeDocumento (texto : Texto) : List Texto :=
  (toWindows (pyWords texto)).map joinSpace

/-- The full `(chunk, nombre)` list built by `seleccionar_chunks_relevantes`
from all documents. -/
def chunksDe (documentos : List (Texto × Texto)) : List (Texto × Texto) :=
  documentos.flatMap (fun d => (chunksDeDocumento d.2).map (fun c => (c, d.1)))

/-- Index comparison by similarity score, with out-of-range indices reading
score 0 (never exercised on well-formed input). -/
def leIdx (similitudes : List ℚ) (i j : ℕ) : Bool :=
  similitudes.getD i 0 ≤ similitudes.getD j 0

/-- Stable insertion of an index into an ascending-by-score index list. -/
def insertaIdx (similitudes : List ℚ) (i : ℕ) : List ℕ → List ℕ
  | [] => [i]
  | j :: js => if leIdx similitudes i j then i :: j :: js else j :: insertaIdx similitudes i js

/-- Stable insertion sort of an index list, ascending by score. -/
def ordenaIdx (similitudes : List ℚ) : List ℕ → List ℕ
  | [] => []
  | i :: is => insertaIdx similitudes i (ordenaIdx similitudes is)

/-- `np.argsort(similitudes)[::-1]`: indices sorted ascending by score,
then reversed, with a deterministic tie order. -/
def argsortDescendente (similitudes : List ℚ) : List ℕ :=
  (ordenaIdx similitudes (List.range similitudes.length)).reverse

/-- `seleccionar_chunks_relevantes` of `app.py`.  `score pregunta textos`
stands for the TF-IDF/cosine similarity row of the query against the chunk
texts. -/
def seleccionarChunksRelevantes (score : Texto → List Texto → List ℚ)
    (documentos : List (Texto × Texto)) (pregunta : Texto) : List (Texto × Texto) :=
  if documentos.isEmpty then []
  else if (chunksDe documentos).length ≤ MAX_CHUNKS then chunksDe documentos
  else
    ((argsortDescendente (score pregunta ((chunksDe documentos).map Prod.fst))).take
        MAX_CHUNKS).map
      (fun i => (chunksDe documentos).getD i ([], []))

/-- The fixed deny string returned for irrelevant questions. -/
def POLITICA_IRRELEVANTE : Texto :=
  txt "Solo puedo responder preguntas académicas o de cultura general."

/-- `f"La fecha de hoy es {hoy}."` -/
def mensajeFecha (hoy : Texto) : Texto := txt "La fecha de hoy es " ++ hoy ++ txt "."

/-- The general-knowledge policy string (lines 142-145 of `app.py`). -/
def POLITICA_GENERAL : Texto :=
  txt "\n        Eres un profesor experto. Responde de forma precisa y clara, usando conocimiento general, no te limites a los PDFs.\n        Si la pregunta es sobre fecha, clima, IA, presidentes, capitales, responde de manera directa.\n        "

/-- The no-relevant-information policy string (lines 151-154 of `app.py`). -/
def POLITICA_SIN_INFO : Texto :=
  txt "\n        Eres un profesor experto en Ingeniería de Sistemas.\n        No se encontró información relevante en los materiales proporcionados, pero responde usando tus conocimientos generales, en máximo 3 oraciones.\n        "

/-- The part of the grounded instruction template before `{contexto}`. -/
def PLANTILLA_PREFIJO : Texto :=
  txt "\n        Eres un profesor experto en Ingeniería de Sistemas. Usa solo los fragmentos para responder, en máximo 3 oraciones.\n        Si no hay información suficiente, di: \x27No encontré en los materiales, pero te explico:\x27 y da una respuesta general breve.\n        Siempre cita el documento así: [Nombre.pdf]\n        Fragmentos:\n        "

/-- The part of the grounded instruction template after `{contexto}`. -/
def PLANTILLA_SUFIJO : Texto := txt "\n        "

/-- The fixed grounded instruction template (with an empty context slot). -/
def PLANTILLA_INSTRUCCION : Texto := PLANTILLA_PREFIJO ++ PLANTILLA_SUFIJO

/-- The four date literals tested (case-sensitively, on the original
question) at line 138 of `app.py`. -/
def FRASES_FECHA : List Texto :=
  [txt "qué día es hoy", txt "fecha actual", txt "cuándo es hoy", txt "dime la fecha"]

/-- `f"[DOC: {nombre}]\n{chunk}\n---\n\n"` -/
def fragmento (nombre chunk : Texto) : Texto :=
  txt "[DOC: " ++ nombre ++ txt "]\n" ++ chunk ++ txt "\n---\n\n"

/-- The greedy budgeting loop of `construir_contexto_hibrido` (lines
159-164): returns, in order, the chunk fragments appended to `contexto`.
`disponibles` is a ℤ because Python's subtraction may go negative. -/
def seleccionFragmentos (enc : Texto → ℕ) : List (Texto × Texto) → ℤ → List Texto
  | [], _ => []
  | cn :: resto, disponibles =>
    if disponibles - (enc (fragmento cn.2 cn.1) : ℤ) > 0 then
      fragmento cn.2 cn.1 ::
        seleccionFragmentos enc resto (disponibles - (enc (fragmento cn.2 cn.1) : ℤ))
    else seleccionFragmentos enc resto disponibles

/-- `construir_contexto_hibrido` of `app.py`. -/
def construirContextoHibrido (enc : Texto → ℕ) (score : Texto → List Texto → List ℚ)
    (hoy : Texto) (documentos : List (Texto × Texto)) (pregunta : Texto) : Texto :=
  if esPreguntaIrrelevante pregunta then POLITICA_IRRELEVANTE
  else if esPreguntaGeneral pregunta then
    if FRASES_FECHA.any (fun f => containsSub f pregunta) then mensajeFecha hoy
    else POLITICA_GENERAL
  else if (seleccionarChunksRelevantes score documentos pregunta).isEmpty
      || !((seleccionarChunksRelevantes score documentos pregunta).any
            (fun c => !(pyStrip c.1).isEmpty)) then
    POLITICA_SIN_INFO
  else
    PLANTILLA_PREFIJO ++
      (seleccionFragmentos enc (seleccionarChunksRelevantes score documentos pregunta)
          ((MAX_CONTEXT_TOKENS : ℤ) - (enc pregunta : ℤ) - 500)).flatten ++
      PLANTILLA_SUFIJO

/-! ### Chunker lemmas -/

theorem pyWordsAux_clean (t : Texto) : ∀ (acc : Texto), (∀ c ∈ acc, c.isWhitespace = false) →
    ∀ w ∈ pyWordsAux t acc, w ≠ [] ∧ ∀ c ∈ w, c.isWhitespace = false := by
  induction t with
  | nil =>
    intro acc hacc w hw
    cases acc with
    | nil => simp [pyWordsAux] at hw
    | cons a as =>
      simp [pyWordsAux] at hw
      subst hw
      refine ⟨by simp, ?_⟩
      intro c hc
      exact hacc c (List.mem_reverse.mp (by rw [List.reverse_cons]; exact hc))
  | cons c resto IH =>
    intro acc hacc w hw
    by_cases hc : c.isWhitespace = true
    · cases acc with
      | nil =>
        simp [pyWordsAux, hc] at hw
        exact IH [] (by simp) w hw
      | cons a as =>
        simp [pyWordsAux, hc] at hw
        rcases hw with hw | hw
        · subst hw
          refine ⟨by simp, ?_⟩
          intro x hx
          exact hacc x (List.mem_reverse.mp (by rw [List.reverse_cons]; exact hx))
        · exact IH [] (by simp) w hw
    · simp only [pyWordsAux, Bool.not_eq_true] at hc hw
      rw [if_neg (by simp [hc])] at hw
      refine IH (c :: acc) ?_ w hw
      intro x hx
      rcases List.mem_cons.mp hx with h | h
      · subst h; exact hc
      · exact hacc x h

theorem pyWordsAux_append (w : Texto) : ∀ (t acc : Texto), (∀ c ∈ w, c.isWhitespace = false) →
    pyWordsAux (w ++ t) acc = pyWordsAux t (w.reverse ++ acc) := by
  induction w with
  | nil => intro t acc _; simp
  | cons c cs IH =>
    intro t acc hw
    have hc : c.isWhitespace = false := hw c (by simp)
    simp only [List.cons_append, pyWordsAux, List.append_eq]
    rw [if_neg (by simp [hc])]
    rw [IH t (c :: acc) (fun x hx => hw x (by simp [hx]))]
    simp

theorem pyWords_joinSpace (ws : List Texto)
    (h : ∀ w ∈ ws, w ≠ [] ∧ ∀ c ∈ w, c.isWhitespace = false) :
    pyWords (joinSpace ws) = ws := by
  induction ws with
  | nil => rfl
  | cons w rest IH =>
    obtain ⟨hw, hwc⟩ := h w (by simp)
    cases rest with
    | nil =>
      show pyWordsAux (joinSpace [w]) [] = [w]
      have h1 : pyWordsAux (w ++ ([] : Texto)) [] = pyWordsAux [] (w.reverse ++ []) :=
        pyWordsAux_append w [] [] hwc
      simp only [List.append_nil] at h1
      rw [show joinSpace [w] = w from rfl, h1]
      simp [pyWordsAux, hw]
    | cons v vs =>
      show pyWordsAux (joinSpace (w :: v :: vs)) [] = w :: v :: vs
      rw [show joinSpace (w :: v :: vs) = w ++ ' ' :: joinSpace (v :: vs) from rfl]
      rw [pyWordsAux_append w _ [] hwc]
      simp only [List.append_nil, pyWordsAux]
      rw [if_pos (by simp), if_neg (by simp [hw])]
      rw [List.reverse_reverse]
      have hIH := IH (fun x hx => h x (by simp [hx]))
      rw [show pyWords (joinSpace (v :: vs)) = pyWordsAux (joinSpace (v :: vs)) [] from rfl] at hIH
      rw [hIH]

theorem pyWords_clean (t : Texto) :
    ∀ w ∈ pyWords t, w ≠ [] ∧ ∀ c ∈ w, c.isWhitespace = false :=
  pyWordsAux_clean t [] (by simp)

theorem len_le_windows_bound (len : ℕ) :
    len ≤ (len + CHUNK_SIZE - 1) / CHUNK_SIZE * CHUNK_SIZE := by
  simp only [CHUNK_SIZE]
  omega

theorem toWindows_flatten_aux (n : ℕ) : ∀ (ws : List Texto), ws.length ≤ n * CHUNK_SIZE →
    ((List.range n).map (fun k => (ws.drop (k * CHUNK_SIZE)).take CHUNK_SIZE)).flatten = ws := by
  induction n with
  | zero =>
    intro ws h
    simp at h
    simp [h]
  | succ n IH =>
    intro ws h
    rw [List.range_succ_eq_map]
    simp only [List.map_cons, List.map_map, List.flatten_cons, Nat.zero_mul, List.drop_zero]
    have hfun : ((fun k => (ws.drop (k * CHUNK_SIZE)).take CHUNK_SIZE) ∘ Nat.succ) =
        (fun k => (((ws.drop CHUNK_SIZE).drop (k * CHUNK_SIZE)).take CHUNK_SIZE)) := by
      funext k
      simp only [Function.comp]
      rw [List.drop_drop, Nat.succ_mul, Nat.add_comm (k * CHUNK_SIZE) CHUNK_SIZE]
    rw [hfun, IH (ws.drop CHUNK_SIZE) (by simp only [List.length_drop, CHUNK_SIZE] at h ⊢; omega)]
    exact List.take_append_drop CHUNK_SIZE ws

theorem toWindows_flatten (ws : List Texto) : (toWindows ws).flatten = ws :=
  toWindows_flatten_aux _ ws (len_le_windows_bound ws.length)

theorem toWindows_mem_clean (ws : List Texto) (hws : ∀ w ∈ ws, w ≠ [] ∧ ∀ c ∈ w, c.isWhitespace = false) :
    ∀ v ∈ toWindows ws, v ≠ [] ∧ ∀ w ∈ v, w ≠ [] ∧ ∀ c ∈ w, c.isWhitespace = false := by
  intro v hv
  simp only [toWindows, List.mem_map, List.mem_range] at hv
  obtain ⟨k, hk, hveq⟩ := hv
  constructor
  · subst hveq
    intro hnil
    have hlen := congrArg List.length hnil
    simp only [List.length_take, List.length_drop, List.length_nil, CHUNK_SIZE] at hlen hk
    omega
  · intro w hw
    subst hveq
    exact hws w (List.mem_of_mem_drop (List.mem_of_mem_take hw))

theorem toWindows_dropLast_length (ws : List Texto) :
    ∀ v ∈ (toWindows ws).dropLast, v.length = CHUNK_SIZE := by
  intro v hv
  simp only [toWindows] at hv
  rcases hn : (ws.length + CHUNK_SIZE - 1) / CHUNK_SIZE with m | m
  · simp [hn] at hv
  · rw [hn, List.range_succ, List.map_append, List.map_cons, List.map_nil,
      List.dropLast_concat] at hv
    simp only [List.mem_map, List.mem_range] at hv
    obtain ⟨k, hk, hveq⟩ := hv
    subst hveq
    simp only [List.length_take, List.length_drop]
    simp only [CHUNK_SIZE] at hn hk ⊢
    omega

/-- Claim C4: per document, the chunker is lossless and order-preserving:
re-splitting the chunk texts into words and concatenating them, in output
order, yields exactly the document's whitespace-normalized word sequence;
the windows do not overlap, and every window except possibly the last has
exactly `CHUNK_SIZE` words. -/
theorem chunker_lossless (texto : Texto) :
    ((chunksDeDocumento texto).map pyWords).flatten = pyWords texto ∧
      ((toWindows (pyWords texto)).dropLast).all (fun w => w.length == CHUNK_SIZE) = true := by
  constructor
  · have hclean := pyWords_clean texto
    unfold chunksDeDocumento
    rw [List.map_map]
    have hmap : ((toWindows (pyWords texto)).map (pyWords ∘ joinSpace)) =
        (toWindows (pyWords texto)).map id := by
      apply List.map_congr_left
      intro v hv
      obtain ⟨-, hvclean⟩ := toWindows_mem_clean (pyWords texto) hclean v hv
      simpa using pyWords_joinSpace v hvclean
    rw [hmap, List.map_id]
    exact toWindows_flatten (pyWords texto)
  · rw [List.all_eq_true]
    intro v hv
    simpa using toWindows_dropLast_length (pyWords texto) v hv

/-! ### Ranking lemmas -/

theorem mem_insertaIdx (sims : List ℚ) (i : ℕ) :
    ∀ (l : List ℕ) (x : ℕ), x ∈ insertaIdx sims i l ↔ x = i ∨ x ∈ l := by
  intro l
  induction l with
  | nil => intro x; simp [insertaIdx]
  | cons j js IH =>
    intro x
    simp only [insertaIdx]
    by_cases h : leIdx sims i j = true
    · rw [if_pos h]
      simp only [List.mem_cons]
    · rw [if_neg h]
      simp only [List.mem_cons, IH]
      tauto

theorem mem_ordenaIdx (sims : List ℚ) :
    ∀ (l : List ℕ) (x : ℕ), x ∈ ordenaIdx sims l ↔ x ∈ l := by
  intro l
  induction l with
  | nil => intro x; simp [ordenaIdx]
  | cons j js IH =>
    intro x
    simp only [ordenaIdx, mem_insertaIdx, IH, List.mem_cons]

theorem length_insertaIdx (sims : List ℚ) (i : ℕ) :
    ∀ (l : List ℕ), (insertaIdx sims i l).length = l.length + 1 := by
  intro l
  induction l with
  | nil => simp [insertaIdx]
  | cons j js IH =>
    simp only [insertaIdx]
    by_cases h : leIdx sims i j = true
    · rw [if_pos h]; simp
    · rw [if_neg h]; simp [IH]

theorem length_ordenaIdx (sims : List ℚ) :
    ∀ (l : List ℕ), (ordenaIdx sims l).length = l.length := by
  intro l
  induction l with
  | nil => rfl
  | cons j js IH => simp [ordenaIdx, length_insertaIdx, IH]

theorem argsortDescendente_length (sims : List ℚ) :
    (argsortDescendente sims).length = sims.length := by
  simp [argsortDescendente, length_ordenaIdx]

theorem mem_argsortDescendente (sims : List ℚ) (x : ℕ)
    (hx : x ∈ argsortDescendente sims) : x < sims.length := by
  simp only [argsortDescendente, List.mem_reverse, mem_ordenaIdx, List.mem_range] at hx
  exact hx

theorem pairwise_insertaIdx (sims : List ℚ) (i : ℕ) :
    ∀ (l : List ℕ), l.Pairwise (fun a b => sims.getD a 0 ≤ sims.getD b 0) →
      (insertaIdx sims i l).Pairwise (fun a b => sims.getD a 0 ≤ sims.getD b 0) := by
  intro l
  induction l with
  | nil => intro _; simp [insertaIdx]
  | cons j js IH =>
    intro hp
    rw [List.pairwise_cons] at hp
    obtain ⟨hj, hjs⟩ := hp
    simp only [insertaIdx]
    by_cases h : leIdx sims i j = true
    · rw [if_pos h]
      have hij : sims.getD i 0 ≤ sims.getD j 0 := by simpa [leIdx] using h
      refine List.Pairwise.cons ?_ (List.Pairwise.cons hj hjs)
      intro x hx
      rcases List.mem_cons.mp hx with rfl | hx'
      · exact hij
      · exact le_trans hij (hj x hx')
    · rw [if_neg h]
      have hji : sims.getD j 0 ≤ sims.getD i 0 := by
        have h' : ¬ sims.getD i 0 ≤ sims.getD j 0 := by simpa [leIdx] using h
        exact le_of_not_le h'
      refine List.Pairwise.cons ?_ (IH hjs)
      intro x hx
      rcases (mem_insertaIdx sims i js x).mp hx with rfl | hx'
      · exact hji
      · exact hj x hx'

theorem pairwise_ordenaIdx (sims : List ℚ) :
    ∀ (l : List ℕ), (ordenaIdx sims l).Pairwise (fun a b => sims.getD a 0 ≤ sims.getD b 0) := by
  intro l
  induction l with
  | nil => simp [ordenaIdx]
  | cons j js IH => exact pairwise_insertaIdx sims j (ordenaIdx sims js) IH

theorem argsort_pairwise (sims : List ℚ) :
    (argsortDescendente sims).Pairwise (fun a b => sims.getD b 0 ≤ sims.getD a 0) := by
  unfold argsortDescendente
  rw [List.pairwise_reverse]
  exact pairwise_ordenaIdx sims (List.range sims.length)

/-! ### Non-blank chunk lemmas -/

theorem pyStrip_ne_nil (t : Texto) (c : Char) (hc : c ∈ t) (hcw : c.isWhitespace = false) :
    pyStrip t ≠ [] := by
  unfold pyStrip
  intro h
  rw [List.reverse_eq_nil_iff, List.dropWhile_eq_nil_iff] at h
  have hcd : c ∈ t.dropWhile Char.isWhitespace := by
    have hsplit := List.takeWhile_append_dropWhile (p := Char.isWhitespace) (l := t)
    rcases List.mem_append.mp (hsplit ▸ hc) with h1 | h1
    · exact absurd (List.mem_takeWhile_imp h1) (by simp [hcw])
    · exact h1
  have := h c (List.mem_reverse.mpr hcd)
  simp [hcw] at this

theorem mem_joinSpace_head (u : Texto) (rest : List Texto) (c : Char) (hc : c ∈ u) :
    c ∈ joinSpace (u :: rest) := by
  cases rest with
  | nil => simpa [joinSpace] using hc
  | cons v vs =>
    show c ∈ u ++ ' ' :: joinSpace (v :: vs)
    exact List.mem_append_left _ hc

theorem chunksDe_strip (documentos : List (Texto × Texto)) :
    ∀ par ∈ chunksDe documentos, pyStrip par.1 ≠ [] := by
  intro par hpar
  simp only [chunksDe, List.mem_flatMap, List.mem_map] at hpar
  obtain ⟨d, hd, c, hc, hpareq⟩ := hpar
  subst hpareq
  simp only [chunksDeDocumento, List.mem_map] at hc
  obtain ⟨v, hv, hceq⟩ := hc
  subst hceq
  obtain ⟨hvne, hvclean⟩ := toWindows_mem_clean _ (pyWords_clean d.2) v hv
  cases v with
  | nil => exact absurd rfl hvne
  | cons u rest =>
    obtain ⟨hune, hucl⟩ := hvclean u (by simp)
    obtain ⟨c0, hc0⟩ := List.exists_mem_of_ne_nil u hune
    exact pyStrip_ne_nil _ c0 (mem_joinSpace_head u rest c0 hc0) (hucl c0 hc0)

theorem seleccionar_mem_chunksDe (score : Texto → List Texto → List ℚ)
    (documentos : List (Texto × Texto)) (pregunta : Texto)
    (hlen : (score pregunta ((chunksDe documentos).map Prod.fst)).length =
      (chunksDe documentos).length) :
    ∀ par ∈ seleccionarChunksRelevantes score documentos pregunta,
      par ∈ chunksDe documentos := by
  intro par hpar
  unfold seleccionarChunksRelevantes at hpar
  by_cases hd : documentos.isEmpty = true
  · rw [if_pos hd] at hpar
    simp at hpar
  · rw [if_neg hd] at hpar
    by_cases hle : (chunksDe documentos).length ≤ MAX_CHUNKS
    · rw [if_pos hle] at hpar
      exact hpar
    · rw [if_neg hle] at hpar
      simp only [List.mem_map] at hpar
      obtain ⟨i, hi, hpareq⟩ := hpar
      subst hpareq
      have hi' : i < (chunksDe documentos).length := by
        have hmem := List.mem_of_mem_take hi
        have := mem_argsortDescendente _ i hmem
        rwa [hlen] at this
      rw [List.getD_eq_getElem _ _ hi']
      exact List.getElem_mem hi'

/-! ### Concrete instances used by witnesses -/

/-- A trivial token counter (every text costs 0 tokens). -/
def enc0 : Texto → ℕ := fun _ => 0

/-- A concrete deterministic similarity function: score = text length. -/
def score0 : Texto → List Texto → List ℚ := fun _ textos => textos.map (fun t => (t.length : ℚ))

/-- A concrete formatted date. -/
def hoy0 : Texto := txt "12 de octubre de 2026"

/-- A one-document corpus (one chunk). -/
def docsUno : List (Texto × Texto) := [(txt "Syllabus.pdf", txt "hola mundo")]

/-- A nine-document corpus (nine chunks, above `MAX_CHUNKS`). -/
def docsNueve : List (Texto × Texto) :=
  [(txt "d0.pdf", txt "w0"), (txt "d1.pdf", txt "w11"), (txt "d2.pdf", txt "w222"),
   (txt "d3.pdf", txt "w3"), (txt "d4.pdf", txt "w4444"), (txt "d5.pdf", txt "w5"),
   (txt "d6.pdf", txt "w66"), (txt "d7.pdf", txt "w7"), (txt "d8.pdf", txt "w8")]

/-! ### Claims about the ranker -/

/-- Claim C5: when the corpus yields at most `MAX_CHUNKS` chunks, the ranker
returns the full chunk list unchanged — for every query and every similarity
function, so vectorization is never consulted. -/
theorem rank_small_returns_all (score : Texto → List Texto → List ℚ)
    (documentos : List (Texto × Texto)) (pregunta : Texto)
    (h : (chunksDe documentos).length ≤ MAX_CHUNKS) :
    seleccionarChunksRelevantes score documentos pregunta = chunksDe documentos := by
  unfold seleccionarChunksRelevantes
  by_cases hd : documentos.isEmpty = true
  · rw [if_pos hd]
    rw [List.isEmpty_iff.mp hd]
    rfl
  · rw [if_neg hd, if_pos h]

theorem rank_small_returns_all_witness :
    seleccionarChunksRelevantes score0 docsUno (txt "hola") = chunksDe docsUno :=
  rank_small_returns_all score0 docsUno (txt "hola") (by decide)

/-- Claim C3: when the corpus yields more than `MAX_CHUNKS` chunks and the
similarity row has one score per chunk, the ranker returns exactly
`MAX_CHUNKS` chunks — the chunks at the top-`MAX_CHUNKS` argsort indices, in
that order — and the similarity scores along the returned sequence are
non-increasing. -/
theorem rank_top_k (score : Texto → List Texto → List ℚ)
    (documentos : List (Texto × Texto)) (pregunta : Texto)
    (hgt : MAX_CHUNKS < (chunksDe documentos).length)
    (hlen : (score pregunta ((chunksDe documentos).map Prod.fst)).length =
      (chunksDe documentos).length) :
    (seleccionarChunksRelevantes score documentos pregunta).length = MAX_CHUNKS ∧
    seleccionarChunksRelevantes score documentos pregunta =
      ((argsortDescendente (score pregunta ((chunksDe documentos).map Prod.fst))).take
          MAX_CHUNKS).map (fun i => (chunksDe documentos).getD i ([], [])) ∧
    (((argsortDescendente (score pregunta ((chunksDe documentos).map Prod.fst))).take
          MAX_CHUNKS).map
        (fun i => (score pregunta ((chunksDe documentos).map Prod.fst)).getD i 0)).Pairwise
      (fun a b => b ≤ a) := by
  have hd : documentos.isEmpty = false := by
    cases documentos with
    | nil => simp [chunksDe, MAX_CHUNKS] at hgt
    | cons a as => rfl
  have hnle : ¬ (chunksDe documentos).length ≤ MAX_CHUNKS := by omega
  have hsel : seleccionarChunksRelevantes score documentos pregunta =
      ((argsortDescendente (score pregunta ((chunksDe documentos).map Prod.fst))).take
          MAX_CHUNKS).map (fun i => (chunksDe documentos).getD i ([], [])) := by
    unfold seleccionarChunksRelevantes
    rw [if_neg (by simp [hd]), if_neg hnle]
  refine ⟨?_, hsel, ?_⟩
  · rw [hsel, List.length_map, List.length_take, argsortDescendente_length, hlen]
    simp only [MAX_CHUNKS] at hgt ⊢
    omega
  · rw [List.pairwise_map]
    exact List.Pairwise.sublist (List.take_sublist _ _) (argsort_pairwise _)

theorem rank_top_k_witness :
    (seleccionarChunksRelevantes score0 docsNueve (txt "zz")).length = MAX_CHUNKS :=
  (rank_top_k score0 docsNueve (txt "zz") (by decide) (by decide)).1

/-- Claim C8: the ranker is deterministic — identical document sets and
queries (under the same similarity function, itself a pure function of its
inputs) produce identical output sequences, tie-breaking included. -/
theorem rank_deterministic (score : Texto → List Texto → List ℚ)
    (documentos documentos' : List (Texto × Texto)) (pregunta pregunta' : Texto)
    (hd : documentos = documentos') (hq : pregunta = pregunta') :
    seleccionarChunksRelevantes score documentos pregunta =
      seleccionarChunksRelevantes score documentos' pregunta' := by
  subst hd
  subst hq
  rfl

theorem rank_deterministic_witness :
    seleccionarChunksRelevantes score0 docsNueve (txt "zz") =
      seleccionarChunksRelevantes score0 docsNueve (txt "zz") :=
  rank_deterministic score0 docsNueve docsNueve (txt "zz") (txt "zz") rfl rfl

/-- Claim C10: every chunk the chunker emits has non-blank text (whitespace
splitting yields non-empty, whitespace-free words and each window joins at
least one word), so the assembler's `hay_chunks` guard — "some selected
chunk has non-blank text" — is true exactly when the selected chunk list is
non-empty. -/
theorem selected_chunks_nonblank (score : Texto → List Texto → List ℚ)
    (documentos : List (Texto × Texto)) (pregunta : Texto)
    (hlen : (score pregunta ((chunksDe documentos).map Prod.fst)).length =
      (chunksDe documentos).length) :
    (∀ par ∈ seleccionarChunksRelevantes score documentos pregunta, pyStrip par.1 ≠ []) ∧
    ((seleccionarChunksRelevantes score documentos pregunta).any
        (fun c => !(pyStrip c.1).isEmpty) =
      !(seleccionarChunksRelevantes score documentos pregunta).isEmpty) := by
  have h1 : ∀ par ∈ seleccionarChunksRelevantes score documentos pregunta,
      pyStrip par.1 ≠ [] := fun par hpar =>
    chunksDe_strip documentos par
      (seleccionar_mem_chunksDe score documentos pregunta hlen par hpar)
  refine ⟨h1, ?_⟩
  cases hsel : seleccionarChunksRelevantes score documentos pregunta with
  | nil => simp
  | cons p ps =>
    have hp : pyStrip p.1 ≠ [] := h1 p (by rw [hsel]; exact List.mem_cons_self p ps)
    have hpe : (pyStrip p.1).isEmpty = false := by
      cases hps : pyStrip p.1 with
      | nil => exact absurd hps hp
      | cons a l => rfl
    simp [List.any_cons, hpe]

theorem selected_chunks_nonblank_witness :
    (seleccionarChunksRelevantes score0 docsUno (txt "hola")).any
        (fun c => !(pyStrip c.1).isEmpty) =
      !(seleccionarChunksRelevantes score0 docsUno (txt "hola")).isEmpty :=
  (selected_chunks_nonblank score0 docsUno (txt "hola") (by decide)).2

/-! ### Budgeting lemmas -/

theorem seleccionFragmentos_sum_le (enc : Texto → ℕ) :
    ∀ (lst : List (Texto × Texto)) (disp : ℤ),
      ((seleccionFragmentos enc lst disp).map (fun f => (enc f : ℤ))).sum ≤ max disp 0 := by
  intro lst
  induction lst with
  | nil =>
    intro disp
    simp only [seleccionFragmentos, List.map_nil, List.sum_nil]
    exact le_max_right _ _
  | cons cn resto IH =>
    intro disp
    simp only [seleccionFragmentos]
    by_cases h : disp - (enc (fragmento cn.2 cn.1) : ℤ) > 0
    · rw [if_pos h]
      simp only [List.map_cons, List.sum_cons]
      have h1 := IH (disp - (enc (fragmento cn.2 cn.1) : ℤ))
      have h2 : (0:ℤ) ≤ (enc (fragmento cn.2 cn.1) : ℤ) := Int.natCast_nonneg _
      have h3 : max (disp - (enc (fragmento cn.2 cn.1) : ℤ)) 0 =
          disp - (enc (fragmento cn.2 cn.1) : ℤ) := max_eq_left (le_of_lt h)
      rw [h3] at h1
      have h4 : max disp 0 = disp := max_eq_left (by omega)
      omega
    · rw [if_neg h]
      exact IH disp

theorem seleccionFragmentos_all_too_big (enc : Texto → ℕ) :
    ∀ (lst : List (Texto × Texto)) (disp : ℤ),
      (∀ cn ∈ lst, disp ≤ (enc (fragmento cn.2 cn.1) : ℤ)) →
      seleccionFragmentos enc lst disp = [] := by
  intro lst
  induction lst with
  | nil => intro disp _; rfl
  | cons cn resto IH =>
    intro disp h
    simp only [seleccionFragmentos]
    rw [if_neg (by have := h cn (by simp); omega)]
    exact IH disp (fun x hx => h x (by simp [hx]))

/-- Claim C1: the token budget is respected: the fixed grounded instruction
template plus all chunk fragments appended by the budgeting loop have a
total token count of at most `MAX_CONTEXT_TOKENS`, provided the fixed
template itself fits in the 500-token completion reserve (true of the real
tiktoken encoder on this short template). -/
theorem contexto_token_budget (enc : Texto → ℕ) (score : Texto → List Texto → List ℚ)
    (documentos : List (Texto × Texto)) (pregunta : Texto)
    (htempl : enc PLANTILLA_INSTRUCCION ≤ 500) :
    enc PLANTILLA_INSTRUCCION +
      ((seleccionFragmentos enc (seleccionarChunksRelevantes score documentos pregunta)
          ((MAX_CONTEXT_TOKENS : ℤ) - (enc pregunta : ℤ) - 500)).map enc).sum ≤
      MAX_CONTEXT_TOKENS := by
  have hsum := seleccionFragmentos_sum_le enc
    (seleccionarChunksRelevantes score documentos pregunta)
    ((MAX_CONTEXT_TOKENS : ℤ) - (enc pregunta : ℤ) - 500)
  have hcast : (((seleccionFragmentos enc (seleccionarChunksRelevantes score documentos pregunta)
        ((MAX_CONTEXT_TOKENS : ℤ) - (enc pregunta : ℤ) - 500)).map enc).sum : ℤ) =
      ((seleccionFragmentos enc (seleccionarChunksRelevantes score documentos pregunta)
        ((MAX_CONTEXT_TOKENS : ℤ) - (enc pregunta : ℤ) - 500)).map (fun f => (enc f : ℤ))).sum := by
    rw [Nat.cast_list_sum, List.map_map]
    rfl
  rw [← hcast] at hsum
  have hq : (0:ℤ) ≤ (enc pregunta : ℤ) := Int.natCast_nonneg _
  have hmax : max ((MAX_CONTEXT_TOKENS : ℤ) - (enc pregunta : ℤ) - 500) 0 ≤ 14500 := by
    simp only [MAX_CONTEXT_TOKENS]
    omega
  have h15 : (((seleccionFragmentos enc (seleccionarChunksRelevantes score documentos pregunta)
      ((MAX_CONTEXT_TOKENS : ℤ) - (enc pregunta : ℤ) - 500)).map enc).sum : ℤ) ≤ 14500 :=
    le_trans hsum hmax
  have hsumN : ((seleccionFragmentos enc (seleccionarChunksRelevantes score documentos pregunta)
      ((MAX_CONTEXT_TOKENS : ℤ) - (enc pregunta : ℤ) - 500)).map enc).sum ≤ 14500 := by
    exact_mod_cast h15
  have hM : MAX_CONTEXT_TOKENS = 15000 := rfl
  omega

theorem contexto_token_budget_witness :
    enc0 PLANTILLA_INSTRUCCION +
      ((seleccionFragmentos enc0 (seleccionarChunksRelevantes score0 docsUno (txt "hola"))
          ((MAX_CONTEXT_TOKENS : ℤ) - (enc0 (txt "hola") : ℤ) - 500)).map enc0).sum ≤
      MAX_CONTEXT_TOKENS :=
  contexto_token_budget enc0 score0 docsUno (txt "hola") (by decide)

/-- Claim C2: degenerate outcomes of the document-grounded path.  With an
empty corpus the builder returns the fixed non-empty general-knowledge
fallback policy (no vectorization is reached, so nothing can raise); and
whenever no selected chunk fits the available budget (in particular when
every chunk fragment costs at least the whole budget) the builder still
returns a non-empty instruction that tells the consumer to fall back to
general knowledge with an explicit caveat. -/
theorem assembler_degrades_gracefully :
    (∀ (enc : Texto → ℕ) (score : Texto → List Texto → List ℚ) (hoy pregunta : Texto),
      esPreguntaIrrelevante pregunta = false → esPreguntaGeneral pregunta = false →
      construirContextoHibrido enc score hoy [] pregunta = POLITICA_SIN_INFO) ∧
    (∀ (enc : Texto → ℕ) (score : Texto → List Texto → List ℚ)
        (hoy : Texto) (documentos : List (Texto × Texto)) (pregunta : Texto),
      esPreguntaIrrelevante pregunta = false → esPreguntaGeneral pregunta = false →
      (∀ cn ∈ seleccionarChunksRelevantes score documentos pregunta,
        (MAX_CONTEXT_TOKENS : ℤ) - (enc pregunta : ℤ) - 500 ≤ (enc (fragmento cn.2 cn.1) : ℤ)) →
      construirContextoHibrido enc score hoy documentos pregunta ≠ [] ∧
      (containsSub (txt "conocimientos generales")
          (construirContextoHibrido enc score hoy documentos pregunta) ||
        containsSub (txt "pero te explico")
          (construirContextoHibrido enc score hoy documentos pregunta)) = true) ∧
    POLITICA_SIN_INFO ≠ [] ∧
    containsSub (txt "conocimientos generales") POLITICA_SIN_INFO = true := by
  refine ⟨?_, ?_, by decide, by decide⟩
  · intro enc score hoy pregunta hirr hgen
    unfold construirContextoHibrido
    rw [if_neg (by simp [hirr]), if_neg (by simp [hgen])]
    have hsel : seleccionarChunksRelevantes score ([] : List (Texto × Texto)) pregunta = [] := rfl
    rw [hsel]
    rw [if_pos (by simp)]
  · intro enc score hoy documentos pregunta hirr hgen hbig
    unfold construirContextoHibrido
    rw [if_neg (by simp [hirr]), if_neg (by simp [hgen])]
    by_cases hguard : ((seleccionarChunksRelevantes score documentos pregunta).isEmpty
        || !((seleccionarChunksRelevantes score documentos pregunta).any
              (fun c => !(pyStrip c.1).isEmpty))) = true
    · rw [if_pos hguard]
      exact ⟨by decide, by decide⟩
    · rw [if_neg hguard]
      rw [seleccionFragmentos_all_too_big enc _ _ hbig]
      exact ⟨by decide, by decide⟩

theorem assembler_degrades_gracefully_witness :
    construirContextoHibrido enc0 score0 hoy0 [] (txt "hola") = POLITICA_SIN_INFO :=
  assembler_degrades_gracefully.1 enc0 score0 hoy0 (txt "hola") (by decide) (by decide)

/-! ### Classifier lemmas -/

theorem containsSub_como_infijo (needle : Texto) :
    ∀ (hay : Texto), containsSub needle hay = true ↔ needle <:+: hay := by
  intro hay
  induction hay with
  | nil =>
    simp [containsSub, List.isEmpty_iff]
  | cons c resto IH =>
    simp only [containsSub, Bool.or_eq_true, IH, List.isPrefixOf_iff_prefix,
      List.infix_cons_iff]

theorem containsSub_map (g : Char → Char) (needle hay : Texto)
    (h : containsSub needle hay = true) :
    containsSub (needle.map g) (hay.map g) = true := by
  rw [containsSub_como_infijo] at h ⊢
  exact h.map g

theorem fecha_implies_general (pregunta : Texto)
    (h : FRASES_FECHA.any (fun f => containsSub f (pyLower pregunta)) = true) :
    esPreguntaGeneral pregunta = true := by
  rw [List.any_eq_true] at h
  obtain ⟨f, hf, hcs⟩ := h
  have hsub : ∀ g ∈ FRASES_FECHA, g ∈ GENERAL_PATTERNS := by decide
  unfold esPreguntaGeneral
  rw [Bool.or_eq_true]
  exact Or.inl (List.any_eq_true.mpr ⟨f, hsub f hf, hcs⟩)

/-! ### Claims about the classifier paths -/

/-- Claim C6 (amended): every query matching the fixed denylist
(case-insensitively) makes the builder return the fixed deny policy before
any ranking or assembling can happen — the result is a constant,
independent of the corpus, the encoder and the similarity function — and in
particular the Spanish query "¿quién ganó el partido de fútbol, hubo
goles?" is classified irrelevant.  (The English rendering "who won the
match, any goals?" does not contain any of the code's Spanish denylist
keywords; see the counterexample.) -/
theorem irrelevant_denied (enc : Texto → ℕ) (score : Texto → List Texto → List ℚ)
    (hoy : Texto) (documentos : List (Texto × Texto)) (pregunta : Texto)
    (h : esPreguntaIrrelevante pregunta = true) :
    construirContextoHibrido enc score hoy documentos pregunta = POLITICA_IRRELEVANTE ∧
    esPreguntaIrrelevante (txt "¿quién ganó el partido de fútbol, hubo goles?") = true := by
  constructor
  · unfold construirContextoHibrido
    rw [if_pos h]
  · decide

theorem irrelevant_denied_witness :
    construirContextoHibrido enc0 score0 hoy0 docsUno
        (txt "¿quién ganó el partido de fútbol, hubo goles?") = POLITICA_IRRELEVANTE :=
  (irrelevant_denied enc0 score0 hoy0 docsUno
    (txt "¿quién ganó el partido de fútbol, hubo goles?") (by decide)).1

/-- Claim C6 counterexample: the spec's scenario query "who won the match,
any goals?" does not match the (Spanish) denylist, so the builder does not
return the deny policy for it. -/
theorem irrelevant_denied_en_counterexample :
    esPreguntaIrrelevante (txt "who won the match, any goals?") = false ∧
    construirContextoHibrido enc0 score0 hoy0 [] (txt "who won the match, any goals?") ≠
      POLITICA_IRRELEVANTE := by
  constructor
  · decide
  · decide

/-- Claim C7 (amended): a query containing one of the code's literal date
phrases (and not matching the denylist, which takes precedence) is answered
deterministically: the builder returns the fixed date message built from
the formatted current date, which contains that date, independently of the
corpus, the encoder and the similarity function — so neither the ranker nor
any downstream model is consulted.  (The English phrasing "what is today's
date" does not match the Spanish literals; see the counterexample.) -/
theorem fecha_fast_path (enc : Texto → ℕ) (score : Texto → List Texto → List ℚ)
    (hoy : Texto) (documentos : List (Texto × Texto)) (pregunta : Texto)
    (hirr : esPreguntaIrrelevante pregunta = false)
    (hdate : FRASES_FECHA.any (fun f => containsSub f pregunta) = true) :
    construirContextoHibrido enc score hoy documentos pregunta = mensajeFecha hoy ∧
    containsSub hoy (mensajeFecha hoy) = true := by
  have hgen : esPreguntaGeneral pregunta = true := by
    apply fecha_implies_general
    rw [List.any_eq_true] at hdate ⊢
    obtain ⟨f, hf, hcs⟩ := hdate
    refine ⟨f, hf, ?_⟩
    have hfixall : ∀ g ∈ FRASES_FECHA, List.map Char.toLower g = g := by decide
    have hmapped := containsSub_map Char.toLower f pregunta hcs
    rw [hfixall f hf] at hmapped
    exact hmapped
  constructor
  · unfold construirContextoHibrido
    rw [if_neg (by simp [hirr]), if_pos (by rw [hgen]), if_pos hdate]
  · rw [containsSub_como_infijo]
    exact ⟨txt "La fecha de hoy es ", txt ".", rfl⟩

theorem fecha_fast_path_witness :
    construirContextoHibrido enc0 score0 hoy0 docsUno (txt "qué día es hoy") =
      mensajeFecha hoy0 :=
  (fecha_fast_path enc0 score0 hoy0 docsUno (txt "qué día es hoy") (by decide) (by decide)).1

/-- Claim C7 counterexample: on the spec's scenario query "what is today's
date" the builder takes the document-grounded path (here with an empty
corpus), and its output does not contain the formatted date. -/
theorem fecha_fast_path_en_counterexample :
    construirContextoHibrido enc0 score0 hoy0 [] (txt "what is today\x27s date") =
      POLITICA_SIN_INFO ∧
    containsSub hoy0
      (construirContextoHibrido enc0 score0 hoy0 [] (txt "what is today\x27s date")) = false := by
  constructor
  · decide
  · decide

/-- Claim C9: the date fast-path tests the original, non-lowercased query
while the general-knowledge classifier lowercases first; hence a query
matching a date literal only after lowercasing (and not matching the
denylist) is classified general but misses the date fast-path: the builder
returns the general-knowledge policy string, never the computed date
string. -/
theorem date_case_sensitivity (enc : Texto → ℕ) (score : Texto → List Texto → List ℚ)
    (hoy : Texto) (documentos : List (Texto × Texto)) (pregunta : Texto)
    (hirr : esPreguntaIrrelevante pregunta = false)
    (hlow : FRASES_FECHA.any (fun f => containsSub f (pyLower pregunta)) = true)
    (horig : FRASES_FECHA.any (fun f => containsSub f pregunta) = false) :
    construirContextoHibrido enc score hoy documentos pregunta = POLITICA_GENERAL ∧
    POLITICA_GENERAL ≠ mensajeFecha hoy := by
  have hgen := fecha_implies_general pregunta hlow
  constructor
  · unfold construirContextoHibrido
    rw [if_neg (by simp [hirr]), if_pos (by rw [hgen]), if_neg (by simp [horig])]
  · intro hEq
    have h2 : POLITICA_GENERAL.head? = (mensajeFecha hoy).head? := congrArg List.head? hEq
    have h3 : (mensajeFecha hoy).head? = some 'L' := by
      rw [show mensajeFecha hoy =
        'L' :: (txt "a fecha de hoy es " ++ hoy ++ txt ".") from rfl]
      rfl
    rw [h3] at h2
    exact absurd h2 (by decide)

theorem date_case_sensitivity_witness :
    construirContextoHibrido enc0 score0 hoy0 docsUno (txt "Qué día es hoy") =
      POLITICA_GENERAL :=
  (date_case_sensitivity enc0 score0 hoy0 docsUno (txt "Qué día es hoy")
    (by decide) (by decide) (by decide)).1
